import Mathlib

/-!
Shallow embedding of `snips_nlu/intent_parser/lookup_intent_parser.py`
(the `LookupIntentParser` class) together with the external collaborators it
uses.  Collaborators that live elsewhere in the repository (tokenizers, the
result helpers, placeholder replacement, stop-word normalization) are modelled
from the specification, as noted on each definition.  Machine-level details
(logging, persistence, the `fitted_required` decorator) are out of scope: the
embedding works with already-fitted parser states, and the externally produced
entity detections are passed to `parse` as an explicit argument.
-/

deriving instance DecidableEq for Except

namespace Snips

/-- Modelled from the spec: ASCII case folding used for Python `str.lower()`. -/
def lowerChar (c : Char) : Char :=
  if 65 ≤ c.toNat ∧ c.toNat ≤ 90 then Char.ofNat (c.toNat + 32) else c

/-- Modelled from the spec: Python `str.lower()`. -/
def lowerString (s : String) : String := String.mk (s.toList.map lowerChar)

/-- Modelled from the spec: ASCII case folding used for Python `str.upper()`. -/
def upperChar (c : Char) : Char :=
  if 97 ≤ c.toNat ∧ c.toNat ≤ 122 then Char.ofNat (c.toNat - 32) else c

/-- Modelled from the spec: Python `str.upper()`. -/
def upperString (s : String) : String := String.mk (s.toList.map upperChar)

/-- Modelled from the spec: the `normalize` primitive of `snips_nlu_utils`
("stop-word normalizer"; stop words are kept as normalized strings). -/
def normalize (s : String) : String := lowerString s

/-- A token with offsets, as returned by `tokenize(text, language)`:
`\x7bvalue, start, end\x7d` (`end` is renamed `stop`). -/
structure Token where
  value : String
  start : Nat
  stop : Nat
deriving DecidableEq

/-- Modelled from the spec: worker for `tokenize` — language-aware splitting of
text into tokens with offsets; modelled as maximal runs of non-space
characters.  `i` is the current position, `st` the start of the token being
read, `cur` its characters in reverse. -/
def tokenizeGo : List Char → Nat → Nat → List Char → List Token
  | [], i, st, cur =>
    if cur = [] then [] else [⟨String.mk cur.reverse, st, i⟩]
  | c :: rest, i, st, cur =>
    if c = ' ' then
      (if cur = [] then [] else [⟨String.mk cur.reverse, st, i⟩])
        ++ tokenizeGo rest (i + 1) (i + 1) []
    else
      tokenizeGo rest (i + 1) (if cur = [] then i else st) (c :: cur)

/-- Modelled from the spec: `tokenize(text, language) -> ordered list of
\x7bvalue, start, end\x7d`. -/
def tokenize (txt : String) : List Token := tokenizeGo txt.toList 0 0 []

/-- Modelled from the spec: `tokenize_light(text, language)` — the lossless
light tokenization returning bare token strings. -/
def tokenize_light (txt : String) : List String := (tokenize txt).map Token.value

/-- Python dict lookup (`d.get(k)`) on an insertion-ordered association list. -/
def alGet {α : Type} : List (String × α) → String → Option α
  | [], _ => none
  | (k2, v) :: rest, k => if k2 = k then some v else alGet rest k

/-- Python dict assignment (`d[k] = v`): update in place, else append. -/
def alSet {α : Type} : List (String × α) → String → α → List (String × α)
  | [], k, v => [(k, v)]
  | (k2, v2) :: rest, k, v =>
    if k2 = k then (k, v) :: rest else (k2, v2) :: alSet rest k v

/-- Python dict deletion (`d.pop(k)`). -/
def alPop {α : Type} : List (String × α) → String → List (String × α)
  | [], _ => []
  | (k2, v2) :: rest, k => if k2 = k then rest else (k2, v2) :: alPop rest k

/-- A deduplicated entity detection:
`\x7b"entity_kind": kind, "range": \x7b"start": start, "end": stop\x7d\x7d`. -/
structure Entity where
  kind : String
  start : Nat
  stop : Nat
deriving DecidableEq

/-- Stable insertion (by ascending `start`) used to model Python
`entities.sort(key=lambda a: a["range"]["start"])`. -/
def insertByStart (e : Entity) : List Entity → List Entity
  | [] => [e]
  | f :: rest => if e.start ≤ f.start then e :: f :: rest else f :: insertByStart e rest

/-- Stable sort of entities by ascending start offset. -/
def sortByStart (l : List Entity) : List Entity := l.foldr insertByStart []

/-- Python slicing `txt[a:b]` at character level. -/
def substr (txt : String) (a b : Nat) : String :=
  String.mk ((txt.toList.drop a).take (b - a))

/-- `_get_entity_name_placeholder`:
`"%" + "".join(tokenize_light(entity_label, language)).upper() + "%"`. -/
def entity_name_placeholder (label : String) : String :=
  "%" ++ upperString (String.join (tokenize_light label)) ++ "%"

/-- The parser state after `__init__` / `fit`.  `self.map` and the two
registries are insertion-ordered; `_intents_mapping` and `_slots_mapping` are
the private name→id dicts. -/
structure Parser where
  stop_words : List String
  map : List (String × (Nat × List Nat))
  intents_names : List String
  slots_names : List String
  intents_mapping : List (String × Nat)
  slots_mapping : List (String × Nat)
deriving DecidableEq

/-- The freshly constructed parser (`__init__`), with the not-yet-fitted `map`
represented as the empty dict (the embedding only considers fitted parsers). -/
def p0 : Parser := ⟨[], [], [], [], [], []⟩

/-- `normalize_token(token)`: the stop-word normalizer applied to a token. -/
def normalize_token (t : Token) : String := normalize t.value

/-- `"".join(" " for _ in range(n))`. -/
def spaces (n : Nat) : String := String.mk (List.replicate n ' ')

/-- Loop of `_preprocess_text`: each token whose normalized form is a stop word
(only when the stop-word set is truthy, i.e. non-empty) is replaced by
whitespace of the same length; gaps between tokens become spaces. -/
def preprocess_go (sw : List String) : List Token → Nat → String → String × Nat
  | [], idx, acc => (acc, idx)
  | t :: rest, idx, acc =>
    let v := if sw ≠ [] ∧ normalize_token t ∈ sw then spaces t.value.length else t.value
    preprocess_go sw rest t.stop (acc ++ spaces (t.start - idx) ++ v)

/-- `_preprocess_text(txt)`: replaces stop words and characters that are
tokenized out by whitespaces. -/
def preprocess_text (p : Parser) (txt : String) : String :=
  let r := preprocess_go p.stop_words (tokenize txt) 0 ""
  r.1 ++ spaces (txt.length - r.2)

/-- An utterance chunk: literal text, or a slot reference
`\x7bslot_name, entity\x7d`. -/
inductive Chunk where
  | text (t : String)
  | slot (slot_name : String) (entity : String)
deriving DecidableEq

/-- A map value `[intent_id, slot_ids]`. -/
abbrev Value := Nat × List Nat

/-- `get_intent_id`.  Faithful to the source: on a fresh name the new id is
recorded in `self._slots_mapping`, not in `self._intents_mapping` (compare
`get_slot_id`), so `_intents_mapping` is never written. -/
def get_intent_id (p : Parser) (intent_name : String) : Nat × Parser :=
  match alGet p.intents_mapping intent_name with
  | some i => (i, p)
  | none =>
    let i := p.intents_names.length
    (i, { p with intents_names := p.intents_names ++ [intent_name],
                 slots_mapping := alSet p.slots_mapping intent_name i })

/-- `get_slot_id`. -/
def get_slot_id (p : Parser) (slot_name : String) : Nat × Parser :=
  match alGet p.slots_mapping slot_name with
  | some i => (i, p)
  | none =>
    let i := p.slots_names.length
    (i, { p with slots_names := p.slots_names ++ [slot_name],
                 slots_mapping := alSet p.slots_mapping slot_name i })

/-- `_build_io_mapping(intent_id, utterance, entity_placeholders)`.  The
`entity_placeholders` dict maps each dataset entity `e` to
`_get_entity_name_placeholder(e, language)`; on the valid datasets produced by
`validate_and_format_dataset` the lookup is the direct application, which is
how it is modelled here. -/
def build_io_mapping (p : Parser) (intent_id : Nat) (utterance : List Chunk) :
    (String × Value) × Parser :=
  let r := utterance.foldl
    (fun (acc : List String × List Nat × Parser) chunk =>
      match chunk with
      | Chunk.slot slot_name entity_name =>
        let si := get_slot_id acc.2.2 slot_name
        (acc.1 ++ [lowerString (entity_name_placeholder entity_name)],
         acc.2.1 ++ [si.1], si.2)
      | Chunk.text t => (acc.1 ++ [t], acc.2.1, acc.2.2))
    ([], [], p)
  let key := lowerString (String.join
    ((tokenize_light (String.intercalate " " r.1)).filter
      (fun t => decide (normalize t ∉ p.stop_words))))
  ((key, (intent_id, r.2.1)), r.2.2)

/-- `generate_io_mapping(intents, entity_placeholders)`: the stream of
`(key, value)` entries, in dataset order, together with the updated registries. -/
def generate_io_mapping (p : Parser) (intents : List (String × List (List Chunk))) :
    List (String × Value) × Parser :=
  intents.foldl
    (fun acc nu =>
      let ip := get_intent_id acc.2 nu.1
      nu.2.foldl
        (fun acc2 utt =>
          let ep := build_io_mapping acc2.2 ip.1 utt
          (acc2.1 ++ [ep.1], ep.2))
        (acc.1, ip.2))
    ([], p)

/-- The collision handling in `fit`:
`if key in self.map and self.map[key] != val: self.map.pop(key)
 else: self.map[key] = val`. -/
def apply_collision (m : List (String × Value)) (kv : String × Value) :
    List (String × Value) :=
  match alGet m kv.1 with
  | some v => if v ≠ kv.2 then alPop m kv.1 else alSet m kv.1 kv.2
  | none => alSet m kv.1 kv.2

/-- `fit(dataset)`.  `sw` is the stop-word set installed by the `language`
setter (the configured resource when `ignore_stop_words` is set, else the
empty set); `self.map` is reset to the empty dict and the generated entries
are merged into it one by one. -/
def fit (p : Parser) (sw : List String) (ds : List (String × List (List Chunk))) :
    Parser :=
  let p1 : Parser := { p with stop_words := sw, map := [] }
  let r := generate_io_mapping p1 ds
  { r.2 with map := r.1.foldl apply_collision r.2.map }

/-- Errors the query methods can raise: the `assert` in `parse_map_output`, the
`IntentNotFoundError` of `get_slots`, and Python list `IndexError` on a
corrupt registry index. -/
inductive Err where
  | assertionError
  | intentNotFound (name : String)
  | indexError
deriving DecidableEq

/-- `\x7b"intentName": name, "probability": probability\x7d`. -/
structure IntentCls where
  intent_name : Option String
  probability : ℚ
deriving DecidableEq

/-- An unresolved slot
`\x7brange, value, entity (kind), slot_name\x7d` (spec §4.5). -/
structure Slot where
  range : Nat × Nat
  value : String
  entity : String
  slot_name : String
deriving DecidableEq

/-- `\x7b"input": input, "intent": intent, "slots": slots\x7d`. -/
structure ParsingResult where
  input : String
  intent : IntentCls
  slots : List Slot
deriving DecidableEq

/-- A parsing result with its `input` field removed
(`result.pop(RES_INPUT)` in `parse`). -/
structure ExtractionResult where
  intent : IntentCls
  slots : List Slot
deriving DecidableEq

/-- What `parse` returns: a single parsing result, or (when `top_n` is given)
a list of extraction results. -/
inductive ParseOutput where
  | single (r : ParsingResult)
  | multiple (rs : List ExtractionResult)
deriving DecidableEq

/-- Modelled from the spec: `intent_classification_result`. -/
def intent_classification_result (name : Option String) (probability : ℚ) :
    IntentCls :=
  ⟨name, probability⟩

/-- Modelled from the spec: `parsing_result`. -/
def parsing_result (input : String) (intent : IntentCls) (slots : List Slot) :
    ParsingResult :=
  ⟨input, intent, slots⟩

/-- Modelled from the spec: `empty_result(input, probability)` — "a normal,
fully-confident empty result": the no-intent classification carrying the given
probability, and no slots. -/
def empty_result (input : String) (probability : ℚ) : ParsingResult :=
  parsing_result input (intent_classification_result none probability) []

/-- Modelled from the spec: `unresolved_slot(range, value, entity, slot_name)`. -/
def unresolved_slot (rng : Nat × Nat) (value : String) (entity : String)
    (slot_name : String) : Slot :=
  ⟨rng, value, entity, slot_name⟩

/-- Modelled from the spec: `replace_entities_with_placeholders` — replaces
each (deduplicated, non-overlapping) detected entity span with the lower-cased
placeholder of its reported kind. -/
def replace_entities (text : String) (ents : List Entity) : String :=
  let cs := text.toList
  let r := (sortByStart ents).foldl
    (fun (acc : String × Nat) e =>
      (acc.1 ++ String.mk ((cs.drop acc.2).take (e.start - acc.2))
        ++ lowerString (entity_name_placeholder e.kind), e.stop))
    ("", 0)
  r.1 ++ String.mk (cs.drop r.2)

/-- The Key-A computation of `parse`: stop-word-filtered key over the
placeholder-substituted text
(`"".join(t for t in tokenize_light(cleaned_processed_text) if
normalize(t) not in self.stop_words).lower()`). -/
def key_a (p : Parser) (text : String) (ents : List Entity) : String :=
  let processed := replace_entities text ents
  let cleaned := preprocess_text p processed
  lowerString (String.join
    ((tokenize_light cleaned).filter (fun t => decide (normalize t ∉ p.stop_words))))

/-- The Key-B computation of `parse`:
`cleaned_text = self._preprocess_text(text).lower()`;
`"".join(t for t in tokenize_light(cleaned_text))`. -/
def key_b (p : Parser) (text : String) : String :=
  String.join (tokenize_light (lowerString (preprocess_text p text)))

/-- The slot-building loop of `parse_map_output`: one `unresolved_slot` per
zipped `(slot_id, entity)` pair; a slot id outside the registry is a Python
`IndexError`. -/
def mapSlots (p : Parser) (text : String) : List (Nat × Entity) → Except Err (List Slot)
  | [] => Except.ok []
  | si :: rest =>
    match p.slots_names[si.1]? with
    | none => Except.error Err.indexError
    | some slot_name =>
      match mapSlots p text rest with
      | Except.error e => Except.error e
      | Except.ok slots =>
        Except.ok (unresolved_slot (si.2.start, si.2.stop)
          (substr text si.2.start si.2.stop) si.2.kind slot_name :: slots)

/-- `parse_map_output(text, output, entities, intents)`. -/
def parse_map_output (p : Parser) (text : String) (output : Option Value)
    (entities : List Entity) (intents : Option (List String)) :
    Except Err ParsingResult :=
  match output with
  | none => Except.ok (empty_result text 1)
  | some (intent_id, slot_ids) =>
    match p.intents_names[intent_id]? with
    | none => Except.error Err.indexError
    | some intent_name =>
      let decode : Except Err ParsingResult :=
        let sorted := sortByStart entities
        let parsed_intent := intent_classification_result (some intent_name) 1
        if slot_ids.length = sorted.length then
          match mapSlots p text (slot_ids.zip sorted) with
          | Except.error e => Except.error e
          | Except.ok slots => Except.ok (parsing_result text parsed_intent slots)
        else Except.error Err.assertionError
      match intents with
      | some l => if intent_name ∈ l then decode else Except.ok (empty_result text 1)
      | none => decode

/-- The body of `parse` up to the `top_n` shaping: two-tier lookup (Key A,
then Key B with the entities discarded) followed by `parse_map_output`.
`ents` is the deduplicated merge of the two external detectors. -/
def parse_core (p : Parser) (text : String) (ents : List Entity)
    (intents : Option (List String)) : Except Err ParsingResult :=
  match alGet p.map (key_a p text ents) with
  | some v => parse_map_output p text (some v) ents intents
  | none => parse_map_output p text (alGet p.map (key_b p text)) [] intents

/-- `result.pop(RES_INPUT)` of `parse`. -/
def stripInput (r : ParsingResult) : ExtractionResult := ⟨r.intent, r.slots⟩

/-- `parse(text, intents, top_n)`: with `top_n` set, the single result loses
its input field and is wrapped in a one-element list. -/
def parse (p : Parser) (text : String) (ents : List Entity)
    (intents : Option (List String)) (top_n : Option Nat) : Except Err ParseOutput :=
  match top_n with
  | none => (parse_core p text ents intents).map ParseOutput.single
  | some _ =>
    (parse_core p text ents intents).map (fun r => ParseOutput.multiple [stripInput r])

/-- The ranked list built by `get_intents` from a parsing result: the matched
intent classification first, then every other known intent at probability 0,
then the explicit no-intent sentinel at probability 0.  Under the modelled
result shape `res[RES_INTENT]` is always a classification dict (a no-match
carries the no-intent classification), so the `except TypeError` branch of the
source is unreachable and the `try` branch is the whole behavior. -/
def rankedIntents (p : Parser) (res : ParsingResult) : List IntentCls :=
  res.intent ::
    ((p.intents_names.filter (fun x => decide (some x ≠ res.intent.intent_name))).map
      (fun x => intent_classification_result (some x) 0)
     ++ [intent_classification_result none 0])

/-- `get_intents(text)` (the internal `self.parse(text)` call is the
`top_n = None` case of `parse`, i.e. `parse_core`). -/
def get_intents (p : Parser) (text : String) (ents : List Entity) :
    Except Err (List IntentCls) :=
  (parse_core p text ents none).map (rankedIntents p)

/-- `get_slots(text, intent)` (again `self.parse(text, intents=[intent])` is
`parse_core`; under the modelled result shape `res[RES_SLOTS]` is always a
list, so the `if slots is None` guard of the source is dead). -/
def get_slots (p : Parser) (text : String) (ents : List Entity)
    (intent : Option String) : Except Err (List Slot) :=
  match intent with
  | none => Except.ok []
  | some name =>
    if name ∈ p.intents_names then
      (parse_core p text ents (some [name])).map ParsingResult.slots
    else Except.error (Err.intentNotFound name)

/-- The spec's stated recipe for Key B, for comparison with `key_b`:
"light-tokenize the raw, unmodified text, concatenate tokens with no
stop-word filtering, lower-case". -/
def key_b_spec (text : String) : String :=
  lowerString (String.join (tokenize_light text))

/-! ### Concrete fitted parsers used by witnesses and counterexamples -/

/-- Dataset with one intent `a` and the single zero-slot utterance `"hi"`. -/
def dsHi : List (String × List (List Chunk)) := [("a", [[Chunk.text "hi"]])]

/-- `fit` on `dsHi` from the fresh parser. -/
def pHi : Parser := fit p0 [] dsHi

/-- A second `fit` on the same dataset. -/
def pHi2 : Parser := fit pHi [] dsHi

/-- Dataset whose generated entry stream is `(k,v1), (k,v2), (k,v1)` with
`v1 ≠ v2`: three one-slot utterances over the same entity, the middle one
with a different slot name. -/
def dsAmb : List (String × List (List Chunk)) :=
  [("a", [[Chunk.slot "s1" "city"], [Chunk.slot "s2" "city"], [Chunk.slot "s1" "city"]])]

/-- `fit` on `dsAmb`. -/
def pAmb : Parser := fit p0 [] dsAmb

/-- Dataset with the zero-slot utterance `"the weather"`, fitted with the
stop-word set `\x7b"the"\x7d`. -/
def dsThe : List (String × List (List Chunk)) := [("a", [[Chunk.text "the weather"]])]

/-- `fit` on `dsThe` with stop word `"the"`. -/
def pThe : Parser := fit p0 ["the"] dsThe

/-- Dataset with a single one-slot utterance (slot `s` over entity `city`). -/
def dsCity : List (String × List (List Chunk)) := [("a", [[Chunk.slot "s" "city"]])]

/-- `fit` on `dsCity`. -/
def pCity : Parser := fit p0 [] dsCity

/-- Dataset with the zero-slot utterance `"hello world"`. -/
def dsHello : List (String × List (List Chunk)) := [("a", [[Chunk.text "hello world"]])]

/-- `fit` on `dsHello`. -/
def pHello : Parser := fit p0 [] dsHello

/-- Dataset with a one-slot utterance under intent `a` and a zero-slot
utterance under intent `b`. -/
def dsTwo : List (String × List (List Chunk)) :=
  [("a", [[Chunk.text "goodbye", Chunk.slot "s" "city"]]),
   ("b", [[Chunk.text "goodbye paris"]])]

/-- `fit` on `dsTwo`. -/
def pTwo : Parser := fit p0 [] dsTwo

/-- The parsing result of `pHi` on `"hi"`. -/
def resHi : ParsingResult := ⟨"hi", ⟨some "a", 1⟩, []⟩

/-! ### Helper lemmas -/

theorem insertByStart_length (e : Entity) (l : List Entity) :
    (insertByStart e l).length = l.length + 1 := by
  induction l with
  | nil => rfl
  | cons f rest ih =>
    by_cases h : e.start ≤ f.start <;> simp [insertByStart, h, ih]

theorem sortByStart_length (l : List Entity) :
    (sortByStart l).length = l.length := by
  induction l with
  | nil => rfl
  | cons e rest ih => simp [sortByStart, List.foldr_cons, insertByStart_length]
                      simpa [sortByStart] using ih

theorem mapSlots_ok_length (p : Parser) (text : String) :
    ∀ (l : List (Nat × Entity)) (res : List Slot),
      mapSlots p text l = Except.ok res → res.length = l.length := by
  intro l
  induction l with
  | nil =>
    intro res h
    simp only [mapSlots, Except.ok.injEq] at h
    simp [← h]
  | cons si rest ih =>
    intro res h
    rcases hs : p.slots_names[si.1]? with _ | sn
    · rw [mapSlots, hs] at h
      cases h
    · rw [mapSlots, hs] at h
      rcases hm : mapSlots p text rest with e | slots
      · rw [hm] at h
        cases h
      · rw [hm] at h
        cases h
        simp [ih slots hm]

/-! ### Claim C1 -/

/-- Claim C1 counterexample: the deletion of an ambiguous key is NOT
permanent.  On `dsAmb` the generated entry stream is
`(k,v1), (k,v2), (k,v1)` for `k = "%city%"` — entries 1 and 3 agree, entry 2
differs — yet after `fit` the key is PRESENT in the map (the third entry
re-inserted it), where the claim says it must be absent. -/
theorem c1_counterexample :
    (generate_io_mapping p0 dsAmb).1
      = [("%city%", (0, [0])), ("%city%", (0, [1])), ("%city%", (0, [0]))]
    ∧ alGet pAmb.map "%city%" = some (0, [0]) := by decide

/-- Claim C1 (amended): when a generated entry's key currently maps to a
different value the key is deleted from the map at that point, but the
deletion is not permanent: a later entry with the same key re-inserts it.
Three same-key entries where entries 1 and 3 agree but entry 2 differs end
with the key present, mapped to the agreed value. -/
theorem c1_theorem (k : String) (v1 v2 : Value) (h : v1 ≠ v2) :
    [(k, v1), (k, v2)].foldl apply_collision [] = []
    ∧ [(k, v1), (k, v2), (k, v1)].foldl apply_collision [] = [(k, v1)] := by
  have h1 : apply_collision [] (k, v1) = [(k, v1)] := by
    simp [apply_collision, alGet, alSet]
  have h2 : apply_collision [(k, v1)] (k, v2) = [] := by
    simp [apply_collision, alGet, alPop, h]
  constructor
  · show apply_collision (apply_collision [] (k, v1)) (k, v2) = []
    rw [h1, h2]
  · show apply_collision (apply_collision (apply_collision [] (k, v1)) (k, v2)) (k, v1)
      = [(k, v1)]
    rw [h1, h2, h1]

/-- Witness for `c1_theorem` at `k = "k"`, `v1 = (0, [])`, `v2 = (1, [])`. -/
theorem c1_witness :
    [("k", ((0 : Nat), ([] : List Nat))), ("k", (1, [])), ("k", (0, []))].foldl
      apply_collision [] = [("k", (0, []))] :=
  ( c1_theorem ("k") (0, []) (1, []) (by decide)).2

/-! ### Claim C2 -/

/-- Claim C2 (code bug): `fit` is NOT idempotent.  Fitting `dsHi` twice from
the fresh parser leaves `intents_names = ["a", "a"]` and shifts the map value
to intent id 1, because `get_intent_id` records the freshly assigned id in
`self._slots_mapping` instead of `self._intents_mapping` — as the last two
conjuncts show, `_intents_mapping` is never written at all, so every `fit`
re-appends every intent name. -/
theorem c2_theorem :
    pHi.intents_names = ["a"] ∧ pHi2.intents_names = ["a", "a"]
    ∧ pHi.map = [("hi", (0, []))] ∧ pHi2.map = [("hi", (1, []))]
    ∧ pHi.intents_mapping = [] ∧ pHi2.intents_mapping = []
    ∧ pHi.slots_mapping = [("a", 0)] ∧ pHi2.slots_mapping = [("a", 1)] := by decide

/-! ### Claim C3 (counterexample) -/

/-- Claim C3 counterexample: Key B is NOT derived from the raw, unmodified
text — `_preprocess_text` blanks stop-word tokens first.  For the parser
fitted with stop word `"the"`, the fallback key of `"the weather"` is
`"weather"`, whereas the claimed derivation (light-tokenize the raw text,
concatenate with no stop-word filtering, lower-case) gives `"theweather"`. -/
theorem c3_counterexample :
    key_b pThe "the weather" = "weather"
    ∧ key_b_spec "the weather" = "theweather"
    ∧ key_b pThe "the weather" ≠ key_b_spec "the weather" := by decide

/-! ### Claim C4 -/

/-- Claim C4: for a positive Key-A match, the decoder checks that the number
of stored slot ids equals the number of (deduplicated) supplied entities: a
mismatch makes `parse` fail with the fatal assertion error, and any
successfully returned result has exactly one slot per stored slot id — the
lists are never truncated or padded. -/
theorem c4_theorem (p : Parser) (text : String) (ents : List Entity) (iid : Nat)
    (sids : List Nat) (intents : Option (List String)) (name : String)
    (hA : alGet p.map (key_a p text ents) = some (iid, sids))
    (hname : p.intents_names[iid]? = some name)
    (hallow : ∀ l, intents = some l → name ∈ l) :
    (sids.length ≠ ents.length →
      parse p text ents intents none = Except.error Err.assertionError)
    ∧ (∀ res, parse p text ents intents none = Except.ok (ParseOutput.single res) →
        res.slots.length = sids.length ∧ sids.length = ents.length) := by
  have hpm : ∀ r, parse_map_output p text (some (iid, sids)) ents intents = r →
      parse p text ents intents none = r.map ParseOutput.single := by
    intro r hr
    simp [parse, parse_core, hA, hr]
  have hsort : (sortByStart ents).length = ents.length := sortByStart_length ents
  constructor
  · intro hne
    have : parse_map_output p text (some (iid, sids)) ents intents
        = Except.error Err.assertionError := by
      have hlen : ¬ sids.length = (sortByStart ents).length := by
        rw [hsort]; exact hne
      rcases intents with _ | l
      · simp [parse_map_output, hname, hlen]
      · have hmem : name ∈ l := hallow l rfl
        simp [parse_map_output, hname, hlen, hmem]
    rw [hpm _ this]
    rfl
  · intro res hres
    by_cases hlen : sids.length = ents.length
    · refine ⟨?_, hlen⟩
      have hlen2 : sids.length = (sortByStart ents).length := by rw [hsort]; exact hlen
      rcases hm : mapSlots p text (sids.zip (sortByStart ents)) with e | slots
      · have : parse_map_output p text (some (iid, sids)) ents intents
            = Except.error e := by
          rcases intents with _ | l
          · simp [parse_map_output, hname, hlen2, hm]
          · have hmem : name ∈ l := hallow l rfl
            simp [parse_map_output, hname, hlen2, hm, hmem]
        rw [hpm _ this] at hres
        cases hres
      · have : parse_map_output p text (some (iid, sids)) ents intents
            = Except.ok (parsing_result text
                (intent_classification_result (some name) 1) slots) := by
          rcases intents with _ | l
          · simp [parse_map_output, hname, hlen2, hm]
          · have hmem : name ∈ l := hallow l rfl
            simp [parse_map_output, hname, hlen2, hm, hmem]
        rw [hpm _ this] at hres
        cases hres
        have := mapSlots_ok_length p text _ _ hm
        simp [parsing_result, this, List.length_zip, hlen2]
    · have : parse p text ents intents none = Except.error Err.assertionError := by
        have : parse_map_output p text (some (iid, sids)) ents intents
            = Except.error Err.assertionError := by
          have hlen2 : ¬ sids.length = (sortByStart ents).length := by
            rw [hsort]; exact hlen
          rcases intents with _ | l
          · simp [parse_map_output, hname, hlen2]
          · have hmem : name ∈ l := hallow l rfl
            simp [parse_map_output, hname, hlen2, hmem]
        rw [hpm _ this]
        rfl
      rw [this] at hres
      cases hres

/-- Witness for `c4_theorem`: `pCity` stores one slot id for key `"%city%"`;
parsing the literal text `"%city%"` with no detected entities is a Key-A
match with a 1-vs-0 mismatch, and fails with the assertion error. -/
theorem c4_witness :
    parse pCity "%city%" [] none none = Except.error Err.assertionError :=
  (c4_theorem pCity "%city%" [] 0 [0] none "a" (by decide) (by decide)
    (fun l h => nomatch h)).1 (by decide)

/-! ### Claim C5 -/

/-- Claim C5: with a caller-supplied allow-list, a positive match (at Key A,
or at Key B after a Key-A miss) whose resolved intent name is not in the list
yields the empty result; the parse outcome is fixed at that point, so the
other key is never re-attempted. -/
theorem c5_theorem (p : Parser) (text : String) (ents : List Entity)
    (l : List String) (iid : Nat) (sids : List Nat) (name : String)
    (hname : p.intents_names[iid]? = some name) (hnot : name ∉ l) :
    (alGet p.map (key_a p text ents) = some (iid, sids) →
      parse p text ents (some l) none
        = Except.ok (ParseOutput.single (empty_result text 1)))
    ∧ (alGet p.map (key_a p text ents) = none →
       alGet p.map (key_b p text) = some (iid, sids) →
      parse p text ents (some l) none
        = Except.ok (ParseOutput.single (empty_result text 1))) := by
  constructor
  · intro hA
    simp [parse, parse_core, hA, parse_map_output, hname, hnot, Except.map]
  · intro hA hB
    simp [parse, parse_core, hA, hB, parse_map_output, hname, hnot, Except.map]

/-- Witness for `c5_theorem`: in `pTwo`, the Key-A match of
`"goodbye paris"` (with `"paris"` detected as a `city` entity) resolves to
intent `"a"`, which is not in the allow-list `["b"]`, so the result is empty —
even though Key B is simultaneously present and resolves to the allowed
intent `"b"` (last two conjuncts): the fallback key is not re-attempted. -/
theorem c5_witness :
    parse pTwo "goodbye paris" [⟨"city", 8, 13⟩] (some ["b"]) none
      = Except.ok (ParseOutput.single (empty_result "goodbye paris" 1))
    ∧ alGet pTwo.map (key_b pTwo "goodbye paris") = some (1, [])
    ∧ pTwo.intents_names[1]? = some "b" ∧ "b" ∈ ["b"] :=
  ⟨(c5_theorem pTwo "goodbye paris" [⟨"city", 8, 13⟩] ["b"] 0 [0] "a"
      (by decide) (by decide)).1 (by decide),
   by decide, by decide, by decide⟩

/-! ### Claim C6 -/

/-- Claim C6 counterexample: a Key-B match does NOT always return the decoded
intent with an empty slot list.  `pCity` stores the one-slot entry
`"%city%" ↦ (0, [0])`; parsing the literal text `"%city%"` with a detected
entity makes Key A miss and Key B hit that entry, and since the stored
slot-id list is non-empty while the entities were discarded, `parse` fails
with the assertion error instead of returning the intent with empty slots. -/
theorem c6_counterexample :
    alGet pCity.map (key_a pCity "%city%" [⟨"city", 1, 5⟩]) = none
    ∧ alGet pCity.map (key_b pCity "%city%") = some (0, [0])
    ∧ parse pCity "%city%" [⟨"city", 1, 5⟩] none none
        = Except.error Err.assertionError := by decide

/-- Claim C6 (amended): when Key A is absent and Key B maps to an entry whose
stored slot-id list is empty — which is what training produces for zero-slot
utterances — `parse` returns the intent decoded from the Key-B entry with an
empty slot list, discarding all detected entities; a Key-B entry with a
non-empty slot-id list instead trips the slot/entity count assertion. -/
theorem c6_theorem (p : Parser) (text : String) (ents : List Entity)
    (iid : Nat) (name : String)
    (hA : alGet p.map (key_a p text ents) = none)
    (hB : alGet p.map (key_b p text) = some (iid, []))
    (hname : p.intents_names[iid]? = some name) :
    parse p text ents none none
      = Except.ok (ParseOutput.single
          (parsing_result text (intent_classification_result (some name) 1) [])) := by
  simp [parse, parse_core, hA, hB, parse_map_output, hname, sortByStart, mapSlots,
    Except.map]

/-- Witness for `c6_theorem`: `pHello` was trained on the zero-slot utterance
`"hello world"`; live text `"hello world"` with `"hello"` spuriously detected
as a `city` entity misses Key A but matches Key B, returning intent `"a"`
with an empty slot list and the detection discarded. -/
theorem c6_witness :
    parse pHello "hello world" [⟨"city", 0, 5⟩] none none
      = Except.ok (ParseOutput.single
          (parsing_result "hello world" (intent_classification_result (some "a") 1) [])) :=
  c6_theorem pHello "hello world" [⟨"city", 0, 5⟩] 0 "a"
    (by decide) (by decide) (by decide)

/-! ### Claim C8 -/

/-- Claim C8: `get_slots(text, intent)` returns `[]` when `intent` is `None`,
raises the unknown-intent error when `intent` is not in the intent registry,
and otherwise returns the slot list of the matcher re-invoked with the
allow-list restricted to that single intent. -/
theorem c8_theorem (p : Parser) (text : String) (ents : List Entity) :
    get_slots p text ents none = Except.ok []
    ∧ (∀ name, name ∉ p.intents_names →
        get_slots p text ents (some name) = Except.error (Err.intentNotFound name))
    ∧ (∀ name, name ∈ p.intents_names →
        get_slots p text ents (some name)
          = (parse_core p text ents (some [name])).map ParsingResult.slots) := by
  refine ⟨rfl, ?_, ?_⟩ <;> intro name h <;> simp [get_slots, h]

/-- Witness for `c8_theorem` on `pHi` (registry `["a"]`). -/
theorem c8_witness :
    get_slots pHi "hi" [] none = Except.ok []
    ∧ get_slots pHi "hi" [] (some "zz") = Except.error (Err.intentNotFound "zz")
    ∧ get_slots pHi "hi" [] (some "a")
        = (parse_core pHi "hi" [] (some ["a"])).map ParsingResult.slots :=
  ⟨(c8_theorem pHi "hi" []).1,
   (c8_theorem pHi "hi" []).2.1 "zz" (by decide),
   (c8_theorem pHi "hi" []).2.2 "a" (by decide)⟩

/-! ### Claim C9 -/

/-- Claim C9: when neither Key A nor Key B is present in the map, `parse`
returns normally (no error) with the empty result: probability 1, no intent,
no slots. -/
theorem c9_theorem (p : Parser) (text : String) (ents : List Entity)
    (intents : Option (List String))
    (hA : alGet p.map (key_a p text ents) = none)
    (hB : alGet p.map (key_b p text) = none) :
    parse p text ents intents none = Except.ok (ParseOutput.single (empty_result text 1))
    ∧ (empty_result text 1).intent.intent_name = none
    ∧ (empty_result text 1).intent.probability = 1
    ∧ (empty_result text 1).slots = [] := by
  refine ⟨?_, rfl, rfl, rfl⟩
  simp [parse, parse_core, hA, hB, parse_map_output, Except.map]

/-- Witness for `c9_theorem`: wholly unseen text on `pHi`. -/
theorem c9_witness :
    parse pHi "zzz" [] none none
      = Except.ok (ParseOutput.single (empty_result "zzz" 1)) :=
  (c9_theorem pHi "zzz" [] none (by decide) (by decide)).1

/-! ### Claim C10 -/

/-- Claim C10: whenever `parse` with `top_n = None` returns a single result,
`parse` with any non-`None` `top_n` returns a one-element list holding that
result with its input field removed — regardless of the numeric value of
`top_n` and regardless of whether a match was found. -/
theorem c10_theorem (p : Parser) (text : String) (ents : List Entity)
    (intents : Option (List String)) (n : Nat) (res : ParsingResult)
    (h : parse p text ents intents none = Except.ok (ParseOutput.single res)) :
    parse p text ents intents (some n)
      = Except.ok (ParseOutput.multiple [stripInput res])
    ∧ [stripInput res].length = 1 := by
  simp only [parse] at h
  rcases hpc : parse_core p text ents intents with e | r
  · rw [hpc] at h
    cases h
  · rw [hpc] at h
    simp only [Except.map, Except.ok.injEq, ParseOutput.single.injEq] at h
    subst h
    exact ⟨by simp [parse, hpc, Except.map], rfl⟩

/-- Witness for `c10_theorem`: the no-slot match of `pHi` on `"hi"` with
`top_n = 5`. -/
theorem c10_witness :
    parse pHi "hi" [] none (some 5)
      = Except.ok (ParseOutput.multiple [stripInput resHi]) :=
  (c10_theorem pHi "hi" [] none 5 resHi (by decide)).1

/-! ### String lemmas: case folding commutes with light tokenization, and
`_preprocess_text` is the identity when the stop-word set is empty -/

theorem toList_append (a b : String) : (a ++ b).toList = a.toList ++ b.toList := by
  cases a; cases b; rfl

theorem data_append (a b : String) : (a ++ b).data = a.data ++ b.data := by
  cases a; cases b; rfl

theorem mk_append (l1 l2 : List Char) :
    String.mk l1 ++ String.mk l2 = String.mk (l1 ++ l2) := rfl

theorem str_ext {a b : String} (h : a.toList = b.toList) : a = b := by
  cases a; cases b; exact congrArg String.mk h

theorem spaces_toList (n : Nat) : (spaces n).toList = List.replicate n ' ' := rfl

theorem spaces_data (n : Nat) : (spaces n).data = List.replicate n ' ' := rfl

theorem lowerChar_space : lowerChar ' ' = ' ' := by decide

theorem ofNat_ne_space (n : Nat) (h1 : 65 ≤ n) (h2 : n ≤ 90) :
    Char.ofNat (n + 32) ≠ ' ' := by
  interval_cases n <;> decide

/-- Case folding sends no character to the space character (and fixes it). -/
theorem lowerChar_eq_space_iff (c : Char) : lowerChar c = ' ' ↔ c = ' ' := by
  unfold lowerChar
  by_cases h : 65 ≤ c.toNat ∧ c.toNat ≤ 90
  · rw [if_pos h]
    constructor
    · intro heq
      exact absurd heq (ofNat_ne_space c.toNat h.1 h.2)
    · intro heq
      subst heq
      simp at h
  · rw [if_neg h]

theorem lower_append (a b : String) :
    lowerString (a ++ b) = lowerString a ++ lowerString b := by
  simp [lowerString, toList_append, List.map_append, mk_append]

/-- Tokenization commutes with case folding: offsets are unchanged and token
values are folded. -/
theorem tokenizeGo_lower (cs : List Char) : ∀ (i st : Nat) (cur : List Char),
    tokenizeGo (cs.map lowerChar) i st (cur.map lowerChar)
      = (tokenizeGo cs i st cur).map
          (fun t => ⟨lowerString t.value, t.start, t.stop⟩) := by
  induction cs with
  | nil =>
    intro i st cur
    by_cases h : cur = []
    · simp [tokenizeGo, h]
    · simp [tokenizeGo, h, List.map_eq_nil_iff, lowerString, List.map_reverse]
  | cons c rest ih =>
    intro i st cur
    by_cases hc : c = ' '
    · subst hc
      simp only [List.map_cons, tokenizeGo, lowerChar_space, if_pos rfl]
      rw [show ([] : List Char) = [].map lowerChar from rfl, ih]
      by_cases h : cur = []
      · simp [h, List.map_eq_nil_iff]
      · simp [h, List.map_eq_nil_iff, List.map_append, lowerString, List.map_reverse]
    · have hc2 : lowerChar c ≠ ' ' := fun heq => hc ((lowerChar_eq_space_iff c).mp heq)
      simp only [List.map_cons, tokenizeGo, if_neg hc, if_neg hc2]
      rw [show lowerChar c :: cur.map lowerChar = (c :: cur).map lowerChar from rfl, ih]
      by_cases h : cur = []
      · simp [h]
      · simp [h, List.map_eq_nil_iff]

theorem tokenize_lowerString (s : String) :
    tokenize (lowerString s)
      = (tokenize s).map (fun t => ⟨lowerString t.value, t.start, t.stop⟩) := by
  have : (lowerString s).toList = s.toList.map lowerChar := rfl
  rw [tokenize, this, show ([] : List Char) = [].map lowerChar from rfl,
    tokenizeGo_lower, tokenize]

theorem tokenize_light_lower (s : String) :
    tokenize_light (lowerString s) = (tokenize_light s).map lowerString := by
  simp [tokenize_light, tokenize_lowerString, List.map_map]

theorem join_lower_aux (l : List String) : ∀ (acc : String),
    (l.map lowerString).foldl (fun r s => r ++ s) (lowerString acc)
      = lowerString (l.foldl (fun r s => r ++ s) acc) := by
  induction l with
  | nil => intro acc; rfl
  | cons a rest ih =>
    intro acc
    simp only [List.map_cons, List.foldl_cons, ← lower_append, ih]

theorem join_lower (l : List String) :
    String.join (l.map lowerString) = lowerString (String.join l) := by
  have : lowerString "" = "" := rfl
  simpa [String.join, this] using join_lower_aux l ""

/-- Concatenating the light tokens of the case-folded text equals case-folding
the concatenated light tokens of the text. -/
theorem join_light_lower (s : String) :
    String.join (tokenize_light (lowerString s))
      = lowerString (String.join (tokenize_light s)) := by
  rw [tokenize_light_lower, join_lower]

/-- With an empty stop-word list, the `_preprocess_text` loop writes back
exactly the characters the tokenizer consumed: tokens verbatim, gaps as the
spaces they were. -/
theorem preprocess_go_reconstruct (cs : List Char) :
    ∀ (cur : List Char) (st idx : Nat) (acc : String) (out : String × Nat),
    idx ≤ st →
    preprocess_go [] (tokenizeGo cs (st + cur.length) st cur) idx acc = out →
    out.1.toList ++ List.replicate (st + cur.length + cs.length - out.2) ' '
      = acc.toList ++ List.replicate (st - idx) ' ' ++ cur.reverse ++ cs
    ∧ idx ≤ out.2 ∧ out.2 ≤ st + cur.length + cs.length := by
  induction cs with
  | nil =>
    intro cur st idx acc out hle hout
    by_cases h : cur = []
    · subst h
      simp only [tokenizeGo, if_pos rfl, preprocess_go] at hout
      subst hout
      refine ⟨?_, le_refl _, by simpa using hle⟩
      simp
    · rw [tokenizeGo, if_neg h] at hout
      simp only [preprocess_go, ne_eq, not_true_eq_false, false_and, if_false] at hout
      subst hout
      refine ⟨?_, by omega, by omega⟩
      simp [toList_append, spaces_toList, spaces_data, data_append]
  | cons c rest ih =>
    intro cur st idx acc out hle hout
    by_cases hc : c = ' '
    · subst hc
      rw [tokenizeGo, if_pos rfl] at hout
      by_cases h : cur = []
      · subst h
        rw [if_pos rfl] at hout
        simp only [List.nil_append, List.length_nil, Nat.add_zero] at hout
        obtain ⟨ihe, ih1, ih2⟩ := ih [] (st + 1) idx acc out (by omega) (by simpa using hout)
        refine ⟨?_, ih1, ?_⟩
        · have e1 : st + 1 - idx = (st - idx) + 1 := by omega
          simp only [List.length_nil, Nat.add_zero, List.length_cons] at ihe ⊢
          have e2 : st + (rest.length + 1) = st + 1 + rest.length := by omega
          rw [e2, ihe, e1]
          simp [List.replicate_succ', List.append_assoc]
        · simp only [List.length_cons, List.length_nil, List.length_singleton] at ih2 ⊢
          omega
      · rw [if_neg h] at hout
        simp only [List.singleton_append, preprocess_go, ne_eq, not_true_eq_false,
          false_and, if_false] at hout
        obtain ⟨ihe, ih1, ih2⟩ := ih [] (st + cur.length + 1) (st + cur.length)
          (acc ++ spaces (st - idx) ++ String.mk cur.reverse) out (by omega)
          (by simpa using hout)
        refine ⟨?_, by omega, ?_⟩
        · simp only [List.length_nil, Nat.add_zero, List.length_cons] at ihe ⊢
          have e2 : st + cur.length + (rest.length + 1) = st + cur.length + 1 + rest.length := by
            omega
          rw [e2, ihe]
          simp [toList_append, spaces_toList, spaces_data, data_append, List.append_assoc,
            Nat.add_sub_cancel_left]
        · simp only [List.length_cons, List.length_nil, List.length_singleton] at ih2 ⊢
          omega
    · rw [tokenizeGo, if_neg hc] at hout
      by_cases h : cur = []
      · subst h
        rw [if_pos rfl] at hout
        simp only [List.length_nil, Nat.add_zero] at hout
        obtain ⟨ihe, ih1, ih2⟩ := ih [c] st idx acc out hle (by simpa using hout)
        refine ⟨?_, ih1, ?_⟩
        · simp only [List.length_nil, Nat.add_zero, List.length_cons,
            List.length_singleton] at ihe ⊢
          have e2 : st + (rest.length + 1) = st + 1 + rest.length := by omega
          rw [e2, ihe]
          simp [List.append_assoc]
        · simp only [List.length_cons, List.length_nil, List.length_singleton] at ih2 ⊢
          omega
      · rw [if_neg h] at hout
        obtain ⟨ihe, ih1, ih2⟩ := ih (c :: cur) st idx acc out hle (by simpa using hout)
        refine ⟨?_, ih1, ?_⟩
        · simp only [List.length_cons] at ihe ⊢
          have e2 : st + cur.length + (rest.length + 1) = st + (cur.length + 1) + rest.length := by
            omega
          rw [e2, ihe]
          simp [List.reverse_cons, List.append_assoc]
        · simp only [List.length_cons, List.length_nil, List.length_singleton] at ih2 ⊢
          omega

/-- `_preprocess_text` is the identity when the stop-word set is empty. -/
theorem preprocess_text_id (p : Parser) (txt : String) (h : p.stop_words = []) :
    preprocess_text p txt = txt := by
  obtain ⟨e, h1, h2⟩ := preprocess_go_reconstruct txt.toList [] 0 0 ""
    (preprocess_go [] (tokenize txt) 0 "") (le_refl 0) rfl
  apply str_ext
  rw [preprocess_text, h]
  rw [toList_append, spaces_toList]
  have hlen : txt.length = txt.toList.length := rfl
  rw [hlen]
  simpa using e

/-! ### Claim C3 (amended theorem) -/

/-- Claim C3 (amended): Key B is derived, for every parse call, from the
stop-word-blanked text produced by `_preprocess_text` — light tokenization,
concatenation of all surviving tokens, lower-casing, with no entity
placeholder substitution involved; when the configured stop-word set is
empty, this coincides with the spec's stated recipe over the raw, unmodified
text. -/
theorem c3_theorem (p : Parser) (text : String) :
    key_b p text
      = lowerString (String.join (tokenize_light (preprocess_text p text)))
    ∧ (p.stop_words = [] → key_b p text = key_b_spec text) := by
  constructor
  · rw [key_b, join_light_lower]
  · intro h
    rw [key_b, preprocess_text_id p text h, key_b_spec, join_light_lower]

/-- Witness for `c3_theorem`: with no stop words configured, the fallback key
of `"Hello World"` is exactly the spec recipe's key. -/
theorem c3_witness :
    key_b p0 "Hello World" = key_b_spec "Hello World" ∧ p0.stop_words = [] :=
  ⟨(c3_theorem p0 "Hello World").2 rfl, rfl⟩

/-! ### Claim C7 -/

/-- Filtering out one occurrence from a duplicate-free list shortens it by
exactly one. -/
theorem filter_ne_some_length (n : String) : ∀ (l : List String), l.Nodup → n ∈ l →
    (l.filter (fun x => decide (some x ≠ some n))).length + 1 = l.length := by
  intro l
  induction l with
  | nil => intro _ hm; cases hm
  | cons a rest ih =>
    intro hd hm
    rw [List.nodup_cons] at hd
    rcases List.mem_cons.mp hm with he | hm2
    · subst he
      rw [List.filter_cons]
      have hall : ∀ x ∈ rest, (fun x => decide (some x ≠ some n)) x = true := by
        intro x hx
        simp only [ne_eq, Option.some.injEq, decide_eq_true_eq]
        intro hxa
        exact hd.1 (hxa ▸ hx)
      rw [if_neg (by simp)]
      rw [List.filter_eq_self.mpr hall]
      simp
    · have hna : n ≠ a := fun he2 => hd.1 (he2 ▸ hm2)
      rw [List.filter_cons]
      have hp : (decide (some a ≠ some n)) = true := by
        simp only [ne_eq, Option.some.injEq, decide_eq_true_eq]
        exact fun h2 => hna h2.symm
      rw [hp, if_pos rfl]
      simp only [List.length_cons]
      rw [← ih hd.2 hm2]

theorem filter_ne_none (l : List String) :
    l.filter (fun x => decide (some x ≠ none)) = l :=
  List.filter_eq_self.mpr (by simp)

/-- Claim C7 counterexample: on unmatched text, `get_intents` does NOT return
a list of length `|known intents| + 1`.  `pHi` knows one intent, yet on the
unseen text `"zzz"` the list has three entries — a leading no-intent result
at probability 1 in addition to the trailing sentinel — not two. -/
theorem c7_counterexample :
    get_intents pHi "zzz" []
      = Except.ok [⟨none, 1⟩, ⟨some "a", 0⟩, ⟨none, 0⟩]
    ∧ pHi.intents_names.length + 1 = 2
    ∧ ¬ ([(⟨none, 1⟩ : IntentCls), ⟨some "a", 0⟩, ⟨none, 0⟩].length
          = pHi.intents_names.length + 1) := by decide

/-- Claim C7 (amended): `get_intents` returns the parse result's intent
classification first, every other known intent at probability 0, and the
trailing no-intent sentinel at probability 0.  When a match was found (and
the registry is duplicate-free) the list length is `|known intents| + 1`
with the matched intent first at probability 1; on a no-match the leading
entry is the no-intent classification at probability 1 and the length is
`|known intents| + 2`. -/
theorem c7_theorem (p : Parser) (text : String) (ents : List Entity)
    (res : ParsingResult) (h : parse_core p text ents none = Except.ok res) :
    get_intents p text ents = Except.ok (rankedIntents p res)
    ∧ (∀ x ∈ (rankedIntents p res).tail, x.probability = 0)
    ∧ (rankedIntents p res).getLast? = some (intent_classification_result none 0)
    ∧ (∀ n, res.intent.intent_name = some n → n ∈ p.intents_names →
        p.intents_names.Nodup →
        (rankedIntents p res).length = p.intents_names.length + 1)
    ∧ (res.intent.intent_name = none →
        (rankedIntents p res).length = p.intents_names.length + 2) := by
  refine ⟨by simp [get_intents, h, Except.map], ?_, ?_, ?_, ?_⟩
  · intro x hx
    simp only [rankedIntents, List.tail_cons] at hx
    rcases List.mem_append.mp hx with hx2 | hx2
    · obtain ⟨y, _, rfl⟩ := List.mem_map.mp hx2
      rfl
    · rw [List.mem_singleton] at hx2
      subst hx2
      rfl
  · show (rankedIntents p res).getLast? = _
    rw [rankedIntents, ← List.cons_append, List.getLast?_concat]
  · intro n hn hmem hnd
    simp only [rankedIntents, hn, List.length_cons, List.length_append,
      List.length_map, List.length_singleton, List.length_nil]
    have := filter_ne_some_length n p.intents_names hnd hmem
    omega
  · intro hn
    simp only [rankedIntents, hn, List.length_cons, List.length_append,
      List.length_map, List.length_singleton, List.length_nil, filter_ne_none]

/-- Witness for `c7_theorem`: on the matched text `"hi"` of `pHi`, the ranked
list is as stated and has length `|known intents| + 1`. -/
theorem c7_witness :
    get_intents pHi "hi" [] = Except.ok (rankedIntents pHi resHi)
    ∧ (rankedIntents pHi resHi).length = pHi.intents_names.length + 1 :=
  ⟨(c7_theorem pHi "hi" [] resHi (by decide)).1,
   (c7_theorem pHi "hi" [] resHi (by decide)).2.2.2.1 "a" rfl (by decide) (by decide)⟩

end Snips
